import Mathlib

/-!
Verification of the RISC-V binary emission core
(`src/lib/cretonne/src/isa/riscv/binemit.rs`).

Field packers (`put_r`, `put_rshamt`, `put_i`, `put_u`, `put_sb`) are
translated directly from the Rust source; machine integers are modelled as
`Nat`/`Int` with explicit masking, exactly as the source masks them.
The output sink and the IR types (`CodeSink`, `ir::Function`,
`InstructionData`, value locations), which live outside the given source
tree, are modelled from the specification's data model and sink contract.
Rust panics are modelled as `Except.error`.
-/

namespace Riscv

/-- Modelled from the spec: the `CodeSink` output-sink contract
(`binemit::CodeSink`, not under the given source tree).  An append-only
stream: `put4` appends one 32-bit word at the current byte offset and
advances the offset by 4; `reloc_ebb` records a relocation
(kind ordinal, destination block) at the current byte offset. -/
structure Sink where
  offset : Nat
  words : List (Nat × Nat)
  relocs : List (Nat × Nat × Nat)
deriving DecidableEq

/-- Modelled from the spec: `CodeSink::put4` appends one 4-byte word at the
current offset. -/
def Sink.put4 (s : Sink) (w : Nat) : Sink :=
  { offset := s.offset + 4, words := s.words ++ [(s.offset, w)], relocs := s.relocs }

/-- Modelled from the spec: `CodeSink::reloc_ebb` records a relocation at
the current write offset. -/
def Sink.reloc_ebb (s : Sink) (kind : Nat) (destination : Nat) : Sink :=
  { s with relocs := s.relocs ++ [(s.offset, kind, destination)] }

/-- An empty sink, used as a concrete test input. -/
def emptySink : Sink := { offset := 0, words := [], relocs := [] }

/-- RISC-V relocation kinds (source `enum RelocKind`). -/
inductive RelocKind where
  | Branch
deriving DecidableEq

/-- Source `impl Into<Reloc> for RelocKind { Reloc(self as u16) }`:
the ordinal of the kind. `Branch` is the first (and only) member, so its
discriminant is 0. -/
def RelocKind.intoReloc : RelocKind → Nat
  | .Branch => 0

/-- Source `pub static RELOC_NAMES: [&'static str; 1] = ["Branch"];`. -/
def RELOC_NAMES : List String := ["Branch"]

/-- `v as u32` for an `i64` value `v`: the low 32 bits, as a natural. -/
def toU32 (x : Int) : Nat := (x % 4294967296).toNat

/-- Source `put_r`: R-type instructions.
Encoding bits: `opcode[6:2] | (funct3 << 5) | (funct7 << 8)`. -/
def put_r (bits rs1 rs2 rd : Nat) (sink : Sink) : Sink :=
  let opcode5 := bits &&& 0x1f
  let funct3 := (bits >>> 5) &&& 0x7
  let funct7 := (bits >>> 8) &&& 0x7f
  let rs1 := rs1 &&& 0x1f
  let rs2 := rs2 &&& 0x1f
  let rd := rd &&& 0x1f
  let i : Nat := 0x3
  let i := i ||| opcode5 <<< 2
  let i := i ||| rd <<< 7
  let i := i ||| funct3 <<< 12
  let i := i ||| rs1 <<< 15
  let i := i ||| rs2 <<< 20
  let i := i ||| funct7 <<< 25
  sink.put4 i

/-- Source `put_rshamt`: R-type instructions with a shift amount instead of
`rs2`.  `shamt as u32 & 0x3f` is the low 6 bits of the `i64` shift amount. -/
def put_rshamt (bits rs1 : Nat) (shamt : Int) (rd : Nat) (sink : Sink) : Sink :=
  let opcode5 := bits &&& 0x1f
  let funct3 := (bits >>> 5) &&& 0x7
  let funct7 := (bits >>> 8) &&& 0x7f
  let rs1 := rs1 &&& 0x1f
  let shamt := toU32 shamt &&& 0x3f
  let rd := rd &&& 0x1f
  let i : Nat := 0x3
  let i := i ||| opcode5 <<< 2
  let i := i ||| rd <<< 7
  let i := i ||| funct3 <<< 12
  let i := i ||| rs1 <<< 15
  let i := i ||| shamt <<< 20
  let i := i ||| funct7 <<< 25
  sink.put4 i

/-- Source `put_i`: I-type instructions.  `(imm << 20) as u32` is the low
32 bits of the `i64` immediate shifted left by 20 (the shift is modelled as
multiplication by `2^20`; truncating the wrapped `i64` to `u32` agrees with
truncating the mathematical product, since `2^32` divides `2^64`). -/
def put_i (bits rs1 : Nat) (imm : Int) (rd : Nat) (sink : Sink) : Sink :=
  let opcode5 := bits &&& 0x1f
  let funct3 := (bits >>> 5) &&& 0x7
  let rs1 := rs1 &&& 0x1f
  let rd := rd &&& 0x1f
  let i : Nat := 0x3
  let i := i ||| opcode5 <<< 2
  let i := i ||| rd <<< 7
  let i := i ||| funct3 <<< 12
  let i := i ||| rs1 <<< 15
  let i := i ||| toU32 (imm * 1048576)
  sink.put4 i

/-- Source `put_u`: U-type instructions.  `imm as u32 & 0xfffff000`. -/
def put_u (bits : Nat) (imm : Int) (rd : Nat) (sink : Sink) : Sink :=
  let opcode5 := bits &&& 0x1f
  let rd := rd &&& 0x1f
  let i : Nat := 0x3
  let i := i ||| opcode5 <<< 2
  let i := i ||| rd <<< 7
  let i := i ||| (toU32 imm &&& 0xfffff000)
  sink.put4 i

/-- Source `put_sb`: SB-type branch instructions.  The displacement bits
are not encoded by this function. -/
def put_sb (bits rs1 rs2 : Nat) (sink : Sink) : Sink :=
  let opcode5 := bits &&& 0x1f
  let funct3 := (bits >>> 5) &&& 0x7
  let rs1 := rs1 &&& 0x1f
  let rs2 := rs2 &&& 0x1f
  let i : Nat := 0x3
  let i := i ||| opcode5 <<< 2
  let i := i ||| funct3 <<< 12
  let i := i ||| rs1 <<< 15
  let i := i ||| rs2 <<< 20
  sink.put4 i

/-- Modelled from the spec: the IR instruction formats read by the recipes
(`ir::InstructionData`, not under the given source tree).  Only the fields
the encoder reads (argument values, immediates, destination block) are
modelled; values and blocks are indices. -/
inductive InstructionData where
  | Binary (args : Nat × Nat)
  | IntCompare (args : Nat × Nat)
  | BinaryImm (arg : Nat) (imm : Int)
  | IntCompareImm (arg : Nat) (imm : Int)
  | UnaryImm (imm : Int)
  | BranchIcmp (destination : Nat) (args : List Nat)
  | Branch (destination : Nat) (args : List Nat)
deriving DecidableEq

/-- Modelled from the spec: a value's location after register allocation is
either a physical register index or some non-register location. -/
inductive ValueLoc where
  | reg (r : Nat)
  | nonReg
deriving DecidableEq

/-- The fatal failure classes of the encoder: a recipe invoked on the wrong
instruction format (the error carries the mismatched instruction's data, as
the Rust panic message does), an operand without a register location
(`ValueLoc::unwrap_reg` panicking), an instruction argument list shorter
than the recipe's slice of it, and the deliberately unimplemented recipe. -/
inductive EmitError where
  | formatMismatch (expected : String) (found : InstructionData)
  | notRegister
  | badSlice
  | notImplemented
deriving DecidableEq

/-- Modelled from the spec: `ValueLoc::unwrap_reg` yields the register index
and fails fatally on any other location kind. -/
def ValueLoc.unwrap_reg : ValueLoc → Except EmitError Nat
  | .reg r => .ok r
  | .nonReg => .error .notRegister

/-- Modelled from the spec: the read-only per-function tables the recipes
consult — per-instruction format data (`dfg`), per-instruction encoding
bits, per-value register locations, and each instruction's first result
value.  Instructions and values are indices. -/
structure Function where
  dfg : Nat → InstructionData
  encodings : Nat → Nat
  locations : Nat → ValueLoc
  first_result : Nat → Nat

/-- Source `recipe_r`: expects the `Binary` format. -/
def recipe_r (func : Function) (inst : Nat) (sink : Sink) : Except EmitError Sink :=
  match func.dfg inst with
  | .Binary args =>
    match (func.locations args.1).unwrap_reg, (func.locations args.2).unwrap_reg,
        (func.locations (func.first_result inst)).unwrap_reg with
    | .ok r0, .ok r1, .ok rr => .ok (put_r (func.encodings inst) r0 r1 rr sink)
    | .error e, _, _ => .error e
    | _, .error e, _ => .error e
    | _, _, .error e => .error e
  | d => .error (.formatMismatch ("Binary") d)

/-- Source `recipe_ricmp`: expects the `IntCompare` format. -/
def recipe_ricmp (func : Function) (inst : Nat) (sink : Sink) : Except EmitError Sink :=
  match func.dfg inst with
  | .IntCompare args =>
    match (func.locations args.1).unwrap_reg, (func.locations args.2).unwrap_reg,
        (func.locations (func.first_result inst)).unwrap_reg with
    | .ok r0, .ok r1, .ok rr => .ok (put_r (func.encodings inst) r0 r1 rr sink)
    | .error e, _, _ => .error e
    | _, .error e, _ => .error e
    | _, _, .error e => .error e
  | d => .error (.formatMismatch ("IntCompare") d)

/-- Source `recipe_rshamt`: expects the `BinaryImm` format. -/
def recipe_rshamt (func : Function) (inst : Nat) (sink : Sink) : Except EmitError Sink :=
  match func.dfg inst with
  | .BinaryImm arg imm =>
    match (func.locations arg).unwrap_reg,
        (func.locations (func.first_result inst)).unwrap_reg with
    | .ok r0, .ok rr => .ok (put_rshamt (func.encodings inst) r0 imm rr sink)
    | .error e, _ => .error e
    | _, .error e => .error e
  | d => .error (.formatMismatch ("BinaryImm") d)

/-- Source `recipe_i`: expects the `BinaryImm` format. -/
def recipe_i (func : Function) (inst : Nat) (sink : Sink) : Except EmitError Sink :=
  match func.dfg inst with
  | .BinaryImm arg imm =>
    match (func.locations arg).unwrap_reg,
        (func.locations (func.first_result inst)).unwrap_reg with
    | .ok r0, .ok rr => .ok (put_i (func.encodings inst) r0 imm rr sink)
    | .error e, _ => .error e
    | _, .error e => .error e
  | d => .error (.formatMismatch ("BinaryImm") d)

/-- Source `recipe_iicmp`: expects the `IntCompareImm` format. -/
def recipe_iicmp (func : Function) (inst : Nat) (sink : Sink) : Except EmitError Sink :=
  match func.dfg inst with
  | .IntCompareImm arg imm =>
    match (func.locations arg).unwrap_reg,
        (func.locations (func.first_result inst)).unwrap_reg with
    | .ok r0, .ok rr => .ok (put_i (func.encodings inst) r0 imm rr sink)
    | .error e, _ => .error e
    | _, .error e => .error e
  | d => .error (.formatMismatch ("IntCompareImm") d)

/-- Source `recipe_iret`: `unimplemented!()` — always fails. -/
def recipe_iret (_func : Function) (_inst : Nat) (_sink : Sink) : Except EmitError Sink :=
  .error .notImplemented

/-- Source `recipe_u`: expects the `UnaryImm` format. -/
def recipe_u (func : Function) (inst : Nat) (sink : Sink) : Except EmitError Sink :=
  match func.dfg inst with
  | .UnaryImm imm =>
    match (func.locations (func.first_result inst)).unwrap_reg with
    | .ok rr => .ok (put_u (func.encodings inst) imm rr sink)
    | .error e => .error e
  | d => .error (.formatMismatch ("UnaryImm") d)

/-- Source `recipe_sb`: expects the `BranchIcmp` format.  The slice
`args[0..2]` is taken first (fatal if the argument list is shorter), the
`Branch` relocation for the destination block is recorded at the current
offset, then the word is packed and appended. -/
def recipe_sb (func : Function) (inst : Nat) (sink : Sink) : Except EmitError Sink :=
  match func.dfg inst with
  | .BranchIcmp destination args =>
    match args with
    | a0 :: a1 :: _ =>
      let sink := sink.reloc_ebb RelocKind.Branch.intoReloc destination
      match (func.locations a0).unwrap_reg, (func.locations a1).unwrap_reg with
      | .ok r0, .ok r1 => .ok (put_sb (func.encodings inst) r0 r1 sink)
      | .error e, _ => .error e
      | _, .error e => .error e
    | _ => .error .badSlice
  | d => .error (.formatMismatch ("BranchIcmp") d)

/-- Source `recipe_sbzero`: expects the `Branch` format; the second register
slot passed to the packer is the hard-wired value 0. -/
def recipe_sbzero (func : Function) (inst : Nat) (sink : Sink) : Except EmitError Sink :=
  match func.dfg inst with
  | .Branch destination args =>
    match args with
    | a0 :: _ =>
      let sink := sink.reloc_ebb RelocKind.Branch.intoReloc destination
      match (func.locations a0).unwrap_reg with
      | .ok r0 => .ok (put_sb (func.encodings inst) r0 0 sink)
      | .error e => .error e
    | _ => .error .badSlice
  | d => .error (.formatMismatch ("Branch") d)

/-- The eight format recipes of the dispatch table (the unimplemented
`recipe_iret` aside), named for quantifying over them. -/
inductive RecipeId where
  | r | ricmp | rshamt | i | iicmp | u | sb | sbzero
deriving DecidableEq

/-- Dispatch a `RecipeId` to its recipe. -/
def runRecipe : RecipeId → Function → Nat → Sink → Except EmitError Sink
  | .r => recipe_r
  | .ricmp => recipe_ricmp
  | .rshamt => recipe_rshamt
  | .i => recipe_i
  | .iicmp => recipe_iicmp
  | .u => recipe_u
  | .sb => recipe_sb
  | .sbzero => recipe_sbzero

/-- The format name each recipe expects (as in its panic message). -/
def expectedFormat : RecipeId → String
  | .r => "Binary"
  | .ricmp => "IntCompare"
  | .rshamt => "BinaryImm"
  | .i => "BinaryImm"
  | .iicmp => "IntCompareImm"
  | .u => "UnaryImm"
  | .sb => "BranchIcmp"
  | .sbzero => "Branch"

/-- Whether an instruction's format is the one a recipe pattern-matches. -/
def formatMatches : RecipeId → InstructionData → Bool
  | .r, .Binary _ => true
  | .ricmp, .IntCompare _ => true
  | .rshamt, .BinaryImm _ _ => true
  | .i, .BinaryImm _ _ => true
  | .iicmp, .IntCompareImm _ _ => true
  | .u, .UnaryImm _ => true
  | .sb, .BranchIcmp _ _ => true
  | .sbzero, .Branch _ _ => true
  | _, _ => false

/-- A concrete function carrying a `BranchIcmp` instruction, used as a test
input: every value is located in the register of the same index. -/
def exFuncSb : Function :=
  { dfg := fun _ => .BranchIcmp 7 [4, 5],
    encodings := fun _ => 0,
    locations := fun v => .reg v,
    first_result := fun _ => 0 }

/-- A concrete function carrying a `Branch` instruction, used as a test
input. -/
def exFuncB : Function :=
  { dfg := fun _ => .Branch 9 [6],
    encodings := fun _ => 0,
    locations := fun v => .reg v,
    first_result := fun _ => 0 }

/-! ### Bit-arithmetic toolkit -/

theorem lorp (k a b : Nat) (h : a < 2 ^ k) : a ||| b * 2 ^ k = a + b * 2 ^ k := by
  rw [Nat.or_comm, Nat.mul_comm, ← Nat.mul_add_lt_is_or h]
  omega

theorem or_mul_pow (k a b : Nat) : (a ||| b) * 2 ^ k = a * 2 ^ k ||| b * 2 ^ k := by
  apply Nat.eq_of_testBit_eq
  intro j
  rw [← Nat.shiftLeft_eq, ← Nat.shiftLeft_eq, ← Nat.shiftLeft_eq]
  simp [Nat.testBit_shiftLeft, Nat.testBit_or, Bool.and_or_distrib_left]

theorem and31 (x : Nat) : x &&& 31 = x % 32 := by
  have h := Nat.and_pow_two_sub_one_eq_mod x 5
  norm_num at h
  exact h

theorem and7 (x : Nat) : x &&& 7 = x % 8 := by
  have h := Nat.and_pow_two_sub_one_eq_mod x 3
  norm_num at h
  exact h

theorem and127 (x : Nat) : x &&& 127 = x % 128 := by
  have h := Nat.and_pow_two_sub_one_eq_mod x 7
  norm_num at h
  exact h

theorem and63 (x : Nat) : x &&& 63 = x % 64 := by
  have h := Nat.and_pow_two_sub_one_eq_mod x 6
  norm_num at h
  exact h

theorem shr5 (x : Nat) : x >>> 5 = x / 32 := by
  rw [Nat.shiftRight_eq_div_pow]

theorem shr8 (x : Nat) : x >>> 8 = x / 256 := by
  rw [Nat.shiftRight_eq_div_pow]

theorem shl2 (x : Nat) : x <<< 2 = x * 4 := by
  rw [Nat.shiftLeft_eq]

theorem shl7 (x : Nat) : x <<< 7 = x * 128 := by
  rw [Nat.shiftLeft_eq]

theorem shl12 (x : Nat) : x <<< 12 = x * 4096 := by
  rw [Nat.shiftLeft_eq]

theorem shl15 (x : Nat) : x <<< 15 = x * 32768 := by
  rw [Nat.shiftLeft_eq]

theorem shl20 (x : Nat) : x <<< 20 = x * 1048576 := by
  rw [Nat.shiftLeft_eq]

theorem shl25 (x : Nat) : x <<< 25 = x * 33554432 := by
  rw [Nat.shiftLeft_eq]

theorem lor4 (a b : Nat) (h : a < 4) : a ||| b * 4 = a + b * 4 := by
  have h2 : a < 2 ^ 2 := by simpa using h
  have h3 := lorp 2 a b h2
  norm_num at h3
  exact h3

theorem lor128 (a b : Nat) (h : a < 128) : a ||| b * 128 = a + b * 128 := by
  have h2 : a < 2 ^ 7 := by simpa using h
  have h3 := lorp 7 a b h2
  norm_num at h3
  exact h3

theorem lor4096 (a b : Nat) (h : a < 4096) : a ||| b * 4096 = a + b * 4096 := by
  have h2 : a < 2 ^ 12 := by simpa using h
  have h3 := lorp 12 a b h2
  norm_num at h3
  exact h3

theorem lor32768 (a b : Nat) (h : a < 32768) : a ||| b * 32768 = a + b * 32768 := by
  have h2 : a < 2 ^ 15 := by simpa using h
  have h3 := lorp 15 a b h2
  norm_num at h3
  exact h3

theorem lor1048576 (a b : Nat) (h : a < 1048576) : a ||| b * 1048576 = a + b * 1048576 := by
  have h2 : a < 2 ^ 20 := by simpa using h
  have h3 := lorp 20 a b h2
  norm_num at h3
  exact h3

theorem lor33554432 (a b : Nat) (h : a < 33554432) : a ||| b * 33554432 = a + b * 33554432 := by
  have h2 : a < 2 ^ 25 := by simpa using h
  have h3 := lorp 25 a b h2
  norm_num at h3
  exact h3

theorem or_mul_33554432 (a b : Nat) : (a ||| b) * 33554432 = a * 33554432 ||| b * 33554432 := by
  have h := or_mul_pow 25 a b
  norm_num at h
  exact h

theorem and_mask_hi_pow (x : Nat) : x &&& (2 ^ 20 - 1) * 2 ^ 12 = x / 2 ^ 12 % 2 ^ 20 * 2 ^ 12 := by
  apply Nat.eq_of_testBit_eq
  intro j
  rw [← Nat.shiftLeft_eq, ← Nat.shiftRight_eq_div_pow, ← Nat.shiftLeft_eq]
  simp only [Nat.testBit_and, Nat.testBit_shiftLeft, Nat.testBit_mod_two_pow,
    Nat.testBit_shiftRight, Nat.testBit_two_pow_sub_one, ge_iff_le]
  by_cases h1 : 12 ≤ j
  · by_cases h2 : j - 12 < 20
    · have hj : 12 + (j - 12) = j := by omega
      simp [h1, h2, hj, Bool.and_comm]
    · simp [h1, h2]
  · simp [h1]

theorem and_mask_hi (x : Nat) : x &&& 4294963200 = x / 4096 % 1048576 * 4096 := by
  have h := and_mask_hi_pow x
  norm_num at h
  exact h

theorem toU32_and63 (x : Int) : toU32 x &&& 63 = (x % 64).toNat := by
  rw [and63]
  unfold toU32
  omega

theorem toU32_mul_shift (x : Int) : toU32 (x * 1048576) = (x % 4096).toNat * 1048576 := by
  unfold toU32
  omega

/-! ### Unconditional word-assembly steps

Each lemma turns one `|=` step of a packer into plain addition; the
disjointness bound is discharged once and for all from the shape of the
already-assembled low part. -/

theorem w1 (b : Nat) : (3 : Nat) ||| b % 32 * 4 = 3 + b % 32 * 4 :=
  lor4 3 _ (by omega)

theorem w2 (b rd : Nat) : 3 + b % 32 * 4 ||| rd % 32 * 128 =
    3 + b % 32 * 4 + rd % 32 * 128 :=
  lor128 _ _ (by omega)

theorem w3 (b rd : Nat) : 3 + b % 32 * 4 + rd % 32 * 128 ||| b / 32 % 8 * 4096 =
    3 + b % 32 * 4 + rd % 32 * 128 + b / 32 % 8 * 4096 :=
  lor4096 _ _ (by omega)

theorem w4 (b rd rs1 : Nat) :
    3 + b % 32 * 4 + rd % 32 * 128 + b / 32 % 8 * 4096 ||| rs1 % 32 * 32768 =
    3 + b % 32 * 4 + rd % 32 * 128 + b / 32 % 8 * 4096 + rs1 % 32 * 32768 :=
  lor32768 _ _ (by omega)

theorem w5r (b rd rs1 rs2 : Nat) :
    3 + b % 32 * 4 + rd % 32 * 128 + b / 32 % 8 * 4096 + rs1 % 32 * 32768 |||
      rs2 % 32 * 1048576 =
    3 + b % 32 * 4 + rd % 32 * 128 + b / 32 % 8 * 4096 + rs1 % 32 * 32768 +
      rs2 % 32 * 1048576 :=
  lor1048576 _ _ (by omega)

theorem w6r (b rd rs1 rs2 : Nat) :
    3 + b % 32 * 4 + rd % 32 * 128 + b / 32 % 8 * 4096 + rs1 % 32 * 32768 +
      rs2 % 32 * 1048576 ||| b / 256 % 128 * 33554432 =
    3 + b % 32 * 4 + rd % 32 * 128 + b / 32 % 8 * 4096 + rs1 % 32 * 32768 +
      rs2 % 32 * 1048576 + b / 256 % 128 * 33554432 :=
  lor33554432 _ _ (by omega)

theorem w5i (b rd rs1 : Nat) (imm : Int) :
    3 + b % 32 * 4 + rd % 32 * 128 + b / 32 % 8 * 4096 + rs1 % 32 * 32768 |||
      (imm % 4096).toNat * 1048576 =
    3 + b % 32 * 4 + rd % 32 * 128 + b / 32 % 8 * 4096 + rs1 % 32 * 32768 +
      (imm % 4096).toNat * 1048576 :=
  lor1048576 _ _ (by omega)

theorem or_high_split (A S F : Nat) (hA : A < 1048576) :
    A + S * 1048576 ||| F * 33554432 =
      A + S % 32 * 1048576 + (S / 32 ||| F) * 33554432 := by
  have h1 : A + S * 1048576 = A + S % 32 * 1048576 + S / 32 * 33554432 := by omega
  have h2 : A + S % 32 * 1048576 ||| S / 32 * 33554432 =
      A + S % 32 * 1048576 + S / 32 * 33554432 :=
    lor33554432 _ _ (by omega)
  rw [h1, ← h2, Nat.or_assoc, ← or_mul_33554432,
    lor33554432 (A + S % 32 * 1048576) (S / 32 ||| F) (by omega)]

theorem w6s (b rd rs1 : Nat) (shamt : Int) :
    3 + b % 32 * 4 + rd % 32 * 128 + b / 32 % 8 * 4096 + rs1 % 32 * 32768 +
      (shamt % 64).toNat * 1048576 ||| b / 256 % 128 * 33554432 =
    3 + b % 32 * 4 + rd % 32 * 128 + b / 32 % 8 * 4096 + rs1 % 32 * 32768 +
      (shamt % 64).toNat % 32 * 1048576 +
      ((shamt % 64).toNat / 32 ||| b / 256 % 128) * 33554432 := by
  have h := or_high_split
    (3 + b % 32 * 4 + rd % 32 * 128 + b / 32 % 8 * 4096 + rs1 % 32 * 32768)
    ((shamt % 64).toNat) (b / 256 % 128) (by omega)
  exact h

theorem w3u (b rd t : Nat) :
    3 + b % 32 * 4 + rd % 32 * 128 ||| t % 1048576 * 4096 =
    3 + b % 32 * 4 + rd % 32 * 128 + t % 1048576 * 4096 :=
  lor4096 _ _ (by omega)

theorem w5sh (b rd rs1 : Nat) (shamt : Int) :
    3 + b % 32 * 4 + rd % 32 * 128 + b / 32 % 8 * 4096 + rs1 % 32 * 32768 |||
      (shamt % 64).toNat * 1048576 =
    3 + b % 32 * 4 + rd % 32 * 128 + b / 32 % 8 * 4096 + rs1 % 32 * 32768 +
      (shamt % 64).toNat * 1048576 :=
  lor1048576 _ _ (by omega)

theorem sb2 (b : Nat) : 3 + b % 32 * 4 ||| b / 32 % 8 * 4096 =
    3 + b % 32 * 4 + b / 32 % 8 * 4096 :=
  lor4096 _ _ (by omega)

theorem sb3 (b rs1 : Nat) : 3 + b % 32 * 4 + b / 32 % 8 * 4096 ||| rs1 % 32 * 32768 =
    3 + b % 32 * 4 + b / 32 % 8 * 4096 + rs1 % 32 * 32768 :=
  lor32768 _ _ (by omega)

theorem sb4 (b rs1 rs2 : Nat) :
    3 + b % 32 * 4 + b / 32 % 8 * 4096 + rs1 % 32 * 32768 ||| rs2 % 32 * 1048576 =
    3 + b % 32 * 4 + b / 32 % 8 * 4096 + rs1 % 32 * 32768 + rs2 % 32 * 1048576 :=
  lor1048576 _ _ (by omega)

/-! ### Master lemmas: each packer's output in closed arithmetic form -/

theorem put_r_eq (bits rs1 rs2 rd : Nat) (s : Sink) :
    put_r bits rs1 rs2 rd s =
      { offset := s.offset + 4,
        words := s.words ++ [(s.offset,
          3 + bits % 32 * 4 + rd % 32 * 128 + bits / 32 % 8 * 4096 +
            rs1 % 32 * 32768 + rs2 % 32 * 1048576 + bits / 256 % 128 * 33554432)],
        relocs := s.relocs } := by
  simp only [put_r, Sink.put4, and31, and7, and127, shr5, shr8,
    shl2, shl7, shl12, shl15, shl20, shl25, w1, w2, w3, w4, w5r, w6r]

theorem put_rshamt_eq (bits rs1 : Nat) (shamt : Int) (rd : Nat) (s : Sink) :
    put_rshamt bits rs1 shamt rd s =
      { offset := s.offset + 4,
        words := s.words ++ [(s.offset,
          3 + bits % 32 * 4 + rd % 32 * 128 + bits / 32 % 8 * 4096 +
            rs1 % 32 * 32768 + (shamt % 64).toNat % 32 * 1048576 +
            ((shamt % 64).toNat / 32 ||| bits / 256 % 128) * 33554432)],
        relocs := s.relocs } := by
  simp only [put_rshamt, Sink.put4, and31, and7, and127, toU32_and63, shr5, shr8,
    shl2, shl7, shl12, shl15, shl20, shl25, w1, w2, w3, w4, w5sh, w6s]

theorem put_i_eq (bits rs1 : Nat) (imm : Int) (rd : Nat) (s : Sink) :
    put_i bits rs1 imm rd s =
      { offset := s.offset + 4,
        words := s.words ++ [(s.offset,
          3 + bits % 32 * 4 + rd % 32 * 128 + bits / 32 % 8 * 4096 +
            rs1 % 32 * 32768 + (imm % 4096).toNat * 1048576)],
        relocs := s.relocs } := by
  simp only [put_i, Sink.put4, and31, and7, shr5, shl2, shl7, shl12, shl15,
    toU32_mul_shift, w1, w2, w3, w4, w5i]

theorem put_u_eq (bits : Nat) (imm : Int) (rd : Nat) (s : Sink) :
    put_u bits imm rd s =
      { offset := s.offset + 4,
        words := s.words ++ [(s.offset,
          3 + bits % 32 * 4 + rd % 32 * 128 + toU32 imm / 4096 % 1048576 * 4096)],
        relocs := s.relocs } := by
  simp only [put_u, Sink.put4, and31, shl2, shl7, and_mask_hi, w1, w2, w3u]

theorem put_sb_eq (bits rs1 rs2 : Nat) (s : Sink) :
    put_sb bits rs1 rs2 s =
      { offset := s.offset + 4,
        words := s.words ++ [(s.offset,
          3 + bits % 32 * 4 + bits / 32 % 8 * 4096 + rs1 % 32 * 32768 +
            rs2 % 32 * 1048576)],
        relocs := s.relocs } := by
  simp only [put_sb, Sink.put4, and31, and7, shr5, shl2, shl12, shl15, shl20,
    w1, sb2, sb3, sb4]

/-- Reading the plain low field of a word given as low part plus disjoint
higher contributions. -/
theorem mod_extract (w lo hi k : Nat) (hw : w = lo + hi * k) (hlo : lo < k) :
    w % k = lo := by
  subst hw
  rw [Nat.add_mul_mod_self_right, Nat.mod_eq_of_lt hlo]

/-- Reading the field at divisor `k`, width-`m`, of a word given as low part
plus field times `k` plus higher contributions times `k * m`. -/
theorem div_mod_extract (w lo v hi k m : Nat) (hw : w = lo + v * k + hi * (k * m))
    (hlo : lo < k) (hv : v < m) : w / k % m = v := by
  have hk : 0 < k := by omega
  subst hw
  have h1 : lo + v * k + hi * (k * m) = lo + k * (v + hi * m) := by ring
  rw [h1, Nat.add_mul_div_left _ _ hk, Nat.div_eq_of_lt hlo, Nat.zero_add,
    Nat.add_mul_mod_self_right, Nat.mod_eq_of_lt hv]

/-! ### Claims -/

/-- Claim C1: for every code sink, calling `put_r` with encoding bits whose
opcode field is `0x0c`, funct3 field `0x0` and funct7 field `0x00`, with
rs1 = register 1, rs2 = register 2 and rd = register 3, emits exactly one
32-bit word equal to `0b0000000_00010_00001_000_00011_01100_11`
(= 2130355), with funct7 at bits 25-31, rs2 at 20-24, rs1 at 15-19, funct3
at 12-14, rd at 7-11, opcode at 2-6 and the fixed `11` at bits 0-1. -/
theorem claim_C1 (bits : Nat) (s : Sink)
    (h1 : bits &&& 0x1f = 0x0c) (h2 : (bits >>> 5) &&& 0x7 = 0)
    (h3 : (bits >>> 8) &&& 0x7f = 0) :
    put_r bits 1 2 3 s =
      { offset := s.offset + 4,
        words := s.words ++ [(s.offset, 2130355)],
        relocs := s.relocs } := by
  rw [and31] at h1
  rw [shr5, and7] at h2
  rw [shr8, and127] at h3
  rw [put_r_eq, h1, h2, h3]

/-- Witness for C1 at encoding bits 12 (opcode `0x0c`, funct3 0, funct7 0)
and the empty sink. -/
theorem claim_C1_w :
    put_r 12 1 2 3 emptySink =
      { offset := 4, words := [(0, 2130355)], relocs := [] } :=
  claim_C1 12 emptySink (by decide) (by decide) (by decide)

/-- Claim C2: every field packer, on all inputs, emits a word whose bits 0-1
equal `11` (the word is congruent to 3 modulo 4). -/
theorem claim_C2 :
    (∀ (bits rs1 rs2 rd : Nat) (s : Sink), ∃ w,
      (put_r bits rs1 rs2 rd s).words = s.words ++ [(s.offset, w)] ∧ w % 4 = 3) ∧
    (∀ (bits rs1 : Nat) (shamt : Int) (rd : Nat) (s : Sink), ∃ w,
      (put_rshamt bits rs1 shamt rd s).words = s.words ++ [(s.offset, w)] ∧ w % 4 = 3) ∧
    (∀ (bits rs1 : Nat) (imm : Int) (rd : Nat) (s : Sink), ∃ w,
      (put_i bits rs1 imm rd s).words = s.words ++ [(s.offset, w)] ∧ w % 4 = 3) ∧
    (∀ (bits : Nat) (imm : Int) (rd : Nat) (s : Sink), ∃ w,
      (put_u bits imm rd s).words = s.words ++ [(s.offset, w)] ∧ w % 4 = 3) ∧
    (∀ (bits rs1 rs2 : Nat) (s : Sink), ∃ w,
      (put_sb bits rs1 rs2 s).words = s.words ++ [(s.offset, w)] ∧ w % 4 = 3) := by
  refine ⟨?_, ?_, ?_, ?_, ?_⟩
  · intro bits rs1 rs2 rd s
    rw [put_r_eq]
    exact ⟨_, rfl, by omega⟩
  · intro bits rs1 shamt rd s
    rw [put_rshamt_eq]
    refine ⟨_, rfl, ?_⟩
    generalize ((shamt % 64).toNat / 32 ||| bits / 256 % 128) = g
    omega
  · intro bits rs1 imm rd s
    rw [put_i_eq]
    exact ⟨_, rfl, by omega⟩
  · intro bits imm rd s
    rw [put_u_eq]
    exact ⟨_, rfl, by omega⟩
  · intro bits rs1 rs2 s
    rw [put_sb_eq]
    exact ⟨_, rfl, by omega⟩

/-- Counterexample to claim C3 as stated: in `put_rshamt` the shift-amount
field of the emitted word (bits 20-25) does NOT always equal the supplied
shift amount mod 64 — with encoding bits 256 (funct7 = 1, odd) and shift
amount 0, funct7's low bit lands in bit 25 and the field reads 32, not 0. -/
theorem claim_C3_cex :
    (put_rshamt 256 0 0 0 emptySink).words = [(0, 33554435)] ∧
    ¬ (33554435 / 1048576 % 64 = ((0 : Int) % 64).toNat) := by
  decide

/-- Claim C3 (amended): in every field packer each register field of the
emitted word equals the supplied register index mod 32, and in `put_rshamt`
the shift-amount field (bits 20-25) equals the supplied shift amount mod 64
whenever the encoding's funct7 field is even (funct7's low bit is OR-ed
into bit 25, the shared top bit of the field); in particular packing with
register value 37 yields a word identical to packing with register value 5,
all other inputs equal. -/
theorem claim_C3_amended :
    (∀ (bits rs1 rs2 rd : Nat) (s : Sink), ∃ w,
      (put_r bits rs1 rs2 rd s).words = s.words ++ [(s.offset, w)] ∧
      w / 128 % 32 = rd % 32 ∧ w / 32768 % 32 = rs1 % 32 ∧
      w / 1048576 % 32 = rs2 % 32) ∧
    (∀ (bits rs1 : Nat) (shamt : Int) (rd : Nat) (s : Sink),
      bits / 256 % 2 = 0 → ∃ w,
      (put_rshamt bits rs1 shamt rd s).words = s.words ++ [(s.offset, w)] ∧
      w / 128 % 32 = rd % 32 ∧ w / 32768 % 32 = rs1 % 32 ∧
      w / 1048576 % 64 = (shamt % 64).toNat) ∧
    (∀ (bits rs1 : Nat) (imm : Int) (rd : Nat) (s : Sink), ∃ w,
      (put_i bits rs1 imm rd s).words = s.words ++ [(s.offset, w)] ∧
      w / 128 % 32 = rd % 32 ∧ w / 32768 % 32 = rs1 % 32) ∧
    (∀ (bits : Nat) (imm : Int) (rd : Nat) (s : Sink), ∃ w,
      (put_u bits imm rd s).words = s.words ++ [(s.offset, w)] ∧
      w / 128 % 32 = rd % 32) ∧
    (∀ (bits rs1 rs2 : Nat) (s : Sink), ∃ w,
      (put_sb bits rs1 rs2 s).words = s.words ++ [(s.offset, w)] ∧
      w / 32768 % 32 = rs1 % 32 ∧ w / 1048576 % 32 = rs2 % 32) ∧
    (∀ (bits x y : Nat) (s : Sink),
      put_r bits 37 x y s = put_r bits 5 x y s ∧
      put_r bits x 37 y s = put_r bits x 5 y s ∧
      put_r bits x y 37 s = put_r bits x y 5 s) ∧
    (∀ (bits x : Nat) (sh : Int) (s : Sink),
      put_rshamt bits 37 sh x s = put_rshamt bits 5 sh x s ∧
      put_rshamt bits x sh 37 s = put_rshamt bits x sh 5 s) ∧
    (∀ (bits x : Nat) (imm : Int) (s : Sink),
      put_i bits 37 imm x s = put_i bits 5 imm x s ∧
      put_i bits x imm 37 s = put_i bits x imm 5 s) ∧
    (∀ (bits : Nat) (imm : Int) (s : Sink),
      put_u bits imm 37 s = put_u bits imm 5 s) ∧
    (∀ (bits x : Nat) (s : Sink),
      put_sb bits 37 x s = put_sb bits 5 x s ∧
      put_sb bits x 37 s = put_sb bits x 5 s) := by
  refine ⟨?_, ?_, ?_, ?_, ?_, ?_, ?_, ?_, ?_, ?_⟩
  · intro bits rs1 rs2 rd s
    rw [put_r_eq]
    refine ⟨_, rfl, ?_, ?_, ?_⟩
    · exact div_mod_extract _ (3 + bits % 32 * 4) (rd % 32)
        (bits / 32 % 8 + rs1 % 32 * 8 + rs2 % 32 * 256 + bits / 256 % 128 * 8192)
        128 32 (by ring) (by omega) (by omega)
    · exact div_mod_extract _
        (3 + bits % 32 * 4 + rd % 32 * 128 + bits / 32 % 8 * 4096) (rs1 % 32)
        (rs2 % 32 + bits / 256 % 128 * 32) 32768 32 (by ring) (by omega) (by omega)
    · exact div_mod_extract _
        (3 + bits % 32 * 4 + rd % 32 * 128 + bits / 32 % 8 * 4096 + rs1 % 32 * 32768)
        (rs2 % 32) (bits / 256 % 128) 1048576 32 (by ring) (by omega) (by omega)
  · intro bits rs1 shamt rd s h
    rw [put_rshamt_eq]
    have hS : (shamt % 64).toNat < 64 := by omega
    have hF2 : bits / 256 % 128 % 2 = 0 := by omega
    refine ⟨_, rfl, ?_, ?_, ?_⟩
    · exact div_mod_extract _ (3 + bits % 32 * 4) (rd % 32)
        (bits / 32 % 8 + rs1 % 32 * 8 + (shamt % 64).toNat % 32 * 256 +
          ((shamt % 64).toNat / 32 ||| bits / 256 % 128) * 8192)
        128 32 (by ring) (by omega) (by omega)
    · exact div_mod_extract _
        (3 + bits % 32 * 4 + rd % 32 * 128 + bits / 32 % 8 * 4096) (rs1 % 32)
        ((shamt % 64).toNat % 32 +
          ((shamt % 64).toNat / 32 ||| bits / 256 % 128) * 32)
        32768 32 (by ring) (by omega) (by omega)
    · rcases (by omega : (shamt % 64).toNat / 32 = 0 ∨ (shamt % 64).toNat / 32 = 1)
        with h5 | h5
      · rw [h5, Nat.zero_or]
        have hx := div_mod_extract
          (3 + bits % 32 * 4 + rd % 32 * 128 + bits / 32 % 8 * 4096 +
            rs1 % 32 * 32768 + (shamt % 64).toNat % 32 * 1048576 +
            bits / 256 % 128 * 33554432)
          (3 + bits % 32 * 4 + rd % 32 * 128 + bits / 32 % 8 * 4096 +
            rs1 % 32 * 32768)
          ((shamt % 64).toNat % 32 + bits / 256 % 128 % 2 * 32)
          (bits / 256 % 128 / 2) 1048576 64 (by omega) (by omega) (by omega)
        omega
      · rw [h5]
        have hG : (1 ||| bits / 256 % 128) % 2 = 1 := by simp
        generalize hg : (1 ||| bits / 256 % 128) = g at hG ⊢
        have hx := div_mod_extract
          (3 + bits % 32 * 4 + rd % 32 * 128 + bits / 32 % 8 * 4096 +
            rs1 % 32 * 32768 + (shamt % 64).toNat % 32 * 1048576 + g * 33554432)
          (3 + bits % 32 * 4 + rd % 32 * 128 + bits / 32 % 8 * 4096 +
            rs1 % 32 * 32768)
          ((shamt % 64).toNat % 32 + g % 2 * 32) (g / 2) 1048576 64
          (by omega) (by omega) (by omega)
        omega
  · intro bits rs1 imm rd s
    rw [put_i_eq]
    exact ⟨_, rfl, by omega, by omega⟩
  · intro bits imm rd s
    rw [put_u_eq]
    exact ⟨_, rfl, by omega⟩
  · intro bits rs1 rs2 s
    rw [put_sb_eq]
    exact ⟨_, rfl, by omega, by omega⟩
  · intro bits x y s
    rw [put_r_eq, put_r_eq, put_r_eq, put_r_eq, put_r_eq, put_r_eq]
    norm_num
  · intro bits x sh s
    rw [put_rshamt_eq, put_rshamt_eq, put_rshamt_eq, put_rshamt_eq]
    norm_num
  · intro bits x imm s
    rw [put_i_eq, put_i_eq, put_i_eq, put_i_eq]
    norm_num
  · intro bits imm s
    rw [put_u_eq, put_u_eq]
  · intro bits x s
    rw [put_sb_eq, put_sb_eq, put_sb_eq, put_sb_eq]
    norm_num

/-- Witness for the amended C3's conditional conjunct: `put_rshamt` with
encoding bits 0 (funct7 even) and shift amount 0 at the empty sink. -/
theorem claim_C3_amended_w :
    ∃ w, (put_rshamt 0 0 0 0 emptySink).words =
        emptySink.words ++ [(emptySink.offset, w)] ∧
      w / 128 % 32 = 0 % 32 ∧ w / 32768 % 32 = 0 % 32 ∧
      w / 1048576 % 64 = ((0 : Int) % 64).toNat :=
  claim_C3_amended.2.1 0 0 0 0 emptySink (by decide)

/-- Counterexample to claim C4 as stated: the low 12 bits of the word
emitted by `put_u` are not literally zero — bits 0-1 always hold the fixed
`11`, so with encoding bits 0, immediate 0 and rd 0 the word is 3. -/
theorem claim_C4_cex :
    (put_u 0 0 0 emptySink).words = [(0, 3)] ∧ ¬ (3 % 4096 = 0) := by
  decide

/-- Claim C4 (amended): the low 12 bits of the word emitted by `put_u`
are independent of the supplied immediate — they consist exactly of the
fixed `11`, the opcode field and the dest-register field, and are zero
beyond those fields. -/
theorem claim_C4_amended (bits : Nat) (imm : Int) (rd : Nat) (s : Sink) :
    ∃ w, (put_u bits imm rd s).words = s.words ++ [(s.offset, w)] ∧
      w % 4096 = 3 + bits % 32 * 4 + rd % 32 * 128 := by
  rw [put_u_eq]
  exact ⟨_, rfl, by omega⟩

/-- Claim C5: in `put_i`, bits 20-31 of the emitted word equal the supplied
immediate reduced modulo `2^12`, and the remaining bits (the low 20) are a
function of the encoding bits and registers only — the immediate is masked
to its 12-bit field before being combined and affects no other bit. -/
theorem claim_C5 (bits rs1 : Nat) (imm : Int) (rd : Nat) (s : Sink) :
    ∃ w, (put_i bits rs1 imm rd s).words = s.words ++ [(s.offset, w)] ∧
      w / 1048576 % 4096 = (imm % 4096).toNat ∧
      w % 1048576 = 3 + bits % 32 * 4 + rd % 32 * 128 + bits / 32 % 8 * 4096 +
        rs1 % 32 * 32768 := by
  rw [put_i_eq]
  exact ⟨_, rfl, by omega, by omega⟩

/-- Claim C6: on a `BranchIcmp` instruction with register-located operands,
`recipe_sb` enqueues exactly one relocation — of kind `Branch` (ordinal 0),
referencing the instruction's destination block, at the offset of the
single word it emits (the relocation is recorded before the word is
appended, so both carry the sink's starting offset) — and the emitted
word's displacement bit ranges (bits 7-11 and 25-31) are zero. -/
theorem claim_C6 (func : Function) (inst : Nat) (sink : Sink) (dest a0 a1 : Nat)
    (rest : List Nat) (r0 r1 : Nat)
    (hd : func.dfg inst = .BranchIcmp dest (a0 :: a1 :: rest))
    (h0 : func.locations a0 = .reg r0)
    (h1 : func.locations a1 = .reg r1) :
    ∃ w, recipe_sb func inst sink =
        .ok { offset := sink.offset + 4,
              words := sink.words ++ [(sink.offset, w)],
              relocs := sink.relocs ++ [(sink.offset, 0, dest)] } ∧
      w / 128 % 32 = 0 ∧ w / 33554432 % 128 = 0 := by
  simp only [recipe_sb, hd, h0, h1, ValueLoc.unwrap_reg, Sink.reloc_ebb,
    RelocKind.intoReloc]
  rw [put_sb_eq]
  refine ⟨_, rfl, ?_, ?_⟩
  · exact div_mod_extract _ (3 + func.encodings inst % 32 * 4) 0
      (func.encodings inst / 32 % 8 + r0 % 32 * 8 + r1 % 32 * 256)
      128 32 (by ring) (by omega) (by omega)
  · exact div_mod_extract _
      (3 + func.encodings inst % 32 * 4 + func.encodings inst / 32 % 8 * 4096 +
        r0 % 32 * 32768 + r1 % 32 * 1048576) 0 0
      33554432 128 (by ring) (by omega) (by omega)

/-- Witness for C6: a concrete `BranchIcmp` instruction at the empty sink. -/
theorem claim_C6_w :
    ∃ w, recipe_sb exFuncSb 0 emptySink =
        .ok { offset := 4, words := [(0, w)], relocs := [(0, 0, 7)] } ∧
      w / 128 % 32 = 0 ∧ w / 33554432 % 128 = 0 :=
  claim_C6 exFuncSb 0 emptySink 7 4 5 [] 4 5 rfl rfl rfl

/-- Claim C7: on a `Branch` instruction with a register-located operand,
`recipe_sbzero` emits a word whose second register field (bits 20-24) is 0,
independent of the operand's register, and enqueues the same `Branch`
relocation (ordinal 0, destination block, at the word's starting offset)
as `recipe_sb` does. -/
theorem claim_C7 (func : Function) (inst : Nat) (sink : Sink) (dest a0 : Nat)
    (rest : List Nat) (r0 : Nat)
    (hd : func.dfg inst = .Branch dest (a0 :: rest))
    (h0 : func.locations a0 = .reg r0) :
    ∃ w, recipe_sbzero func inst sink =
        .ok { offset := sink.offset + 4,
              words := sink.words ++ [(sink.offset, w)],
              relocs := sink.relocs ++ [(sink.offset, 0, dest)] } ∧
      w / 1048576 % 32 = 0 := by
  simp only [recipe_sbzero, hd, h0, ValueLoc.unwrap_reg, Sink.reloc_ebb,
    RelocKind.intoReloc]
  rw [put_sb_eq]
  refine ⟨_, rfl, ?_⟩
  exact div_mod_extract _
    (3 + func.encodings inst % 32 * 4 + func.encodings inst / 32 % 8 * 4096 +
      r0 % 32 * 32768 + 0 % 32 * 1048576) 0 0
    1048576 32 (by ring) (by omega) (by omega)

/-- Witness for C7: a concrete `Branch` instruction at the empty sink. -/
theorem claim_C7_w :
    ∃ w, recipe_sbzero exFuncB 0 emptySink =
        .ok { offset := 4, words := [(0, w)], relocs := [(0, 0, 9)] } ∧
      w / 1048576 % 32 = 0 :=
  claim_C7 exFuncB 0 emptySink 9 6 [] 6 rfl rfl

/-- Claim C8: every recipe, invoked on an instruction whose format does not
match the one it expects, fails with a format-mismatch error carrying the
mismatched instruction's data (and, failing, returns no sink: nothing is
emitted and no relocation is enqueued). -/
theorem claim_C8 (rid : RecipeId) (func : Function) (inst : Nat) (sink : Sink)
    (h : formatMatches rid (func.dfg inst) = false) :
    runRecipe rid func inst sink =
      .error (.formatMismatch (expectedFormat rid) (func.dfg inst)) := by
  cases rid <;>
    · cases hd : func.dfg inst <;>
        simp_all [runRecipe, recipe_r, recipe_ricmp, recipe_rshamt, recipe_i,
          recipe_iicmp, recipe_u, recipe_sb, recipe_sbzero, formatMatches,
          expectedFormat]

/-- Witness for C8: `recipe_r` invoked on a `Branch`-format instruction. -/
theorem claim_C8_w :
    runRecipe .r exFuncB 0 emptySink =
      .error (.formatMismatch ("Binary") (.Branch 9 [6])) :=
  claim_C8 .r exFuncB 0 emptySink rfl

/-- Claim C9: every invocation of `recipe_iret`, on any instruction and any
sink, fails immediately with the not-implemented failure; no sink is
returned, so no word and no relocation is emitted. -/
theorem claim_C9 (func : Function) (inst : Nat) (sink : Sink) :
    recipe_iret func inst sink = .error .notImplemented :=
  rfl

/-- Claim C10: the relocation kind registry has exactly one kind —
`RelocKind.Branch` converts to ordinal 0, and `RELOC_NAMES` is the
one-entry table `["Branch"]` — so every relocation record freshly enqueued
by `recipe_sb` or `recipe_sbzero` carries ordinal 0, and looking that
ordinal up in the name table yields `"Branch"`. -/
theorem claim_C10 :
    (∀ k : RelocKind, k.intoReloc = 0) ∧
    RELOC_NAMES = [("Branch")] ∧
    RELOC_NAMES.length = 1 ∧
    RELOC_NAMES[0]? = some ("Branch") ∧
    (∀ (func : Function) (inst : Nat) (sink s : Sink) (e : Nat × Nat × Nat),
      recipe_sb func inst sink = .ok s → e ∈ s.relocs →
      e ∈ sink.relocs ∨ (e.2.1 = 0 ∧ RELOC_NAMES[e.2.1]? = some ("Branch"))) ∧
    (∀ (func : Function) (inst : Nat) (sink s : Sink) (e : Nat × Nat × Nat),
      recipe_sbzero func inst sink = .ok s → e ∈ s.relocs →
      e ∈ sink.relocs ∨ (e.2.1 = 0 ∧ RELOC_NAMES[e.2.1]? = some ("Branch"))) := by
  refine ⟨fun k => by cases k; rfl, rfl, rfl, rfl, ?_, ?_⟩
  · intro func inst sink s e hok hmem
    cases hd : func.dfg inst <;> simp only [recipe_sb, hd] at hok <;>
      try exact absurd hok (by simp)
    case BranchIcmp dest args =>
      rcases args with _ | ⟨a0, _ | ⟨a1, rest⟩⟩
      · exact absurd hok (by simp)
      · exact absurd hok (by simp)
      · cases hl0 : func.locations a0 <;>
          simp only [hl0, ValueLoc.unwrap_reg] at hok
        case nonReg => cases hl1 : func.locations a1 <;>
          simp_all [ValueLoc.unwrap_reg]
        case reg r0 =>
          cases hl1 : func.locations a1 <;>
            simp only [hl1, ValueLoc.unwrap_reg] at hok
          case nonReg => simp_all
          case reg r1 =>
            rw [put_sb_eq] at hok
            simp only [Sink.reloc_ebb, RelocKind.intoReloc, Except.ok.injEq] at hok
            subst hok
            simp only [List.mem_append, List.mem_singleton] at hmem
            rcases hmem with hmem | rfl
            · exact .inl hmem
            · exact .inr ⟨rfl, rfl⟩
  · intro func inst sink s e hok hmem
    cases hd : func.dfg inst <;> simp only [recipe_sbzero, hd] at hok <;>
      try exact absurd hok (by simp)
    case Branch dest args =>
      rcases args with _ | ⟨a0, rest⟩
      · exact absurd hok (by simp)
      · cases hl0 : func.locations a0 <;>
          simp only [hl0, ValueLoc.unwrap_reg] at hok
        case nonReg => simp_all
        case reg r0 =>
          rw [put_sb_eq] at hok
          simp only [Sink.reloc_ebb, RelocKind.intoReloc, Except.ok.injEq] at hok
          subst hok
          simp only [List.mem_append, List.mem_singleton] at hmem
          rcases hmem with hmem | rfl
          · exact .inl hmem
          · exact .inr ⟨rfl, rfl⟩

/-- Witness for C10's recipe clause: the relocation enqueued by a concrete
`recipe_sb` run carries ordinal 0 and names `"Branch"`. -/
theorem claim_C10_w :
    ((0, 0, 7) : Nat × Nat × Nat) ∈ emptySink.relocs ∨
      (((0, 0, 7) : Nat × Nat × Nat).2.1 = 0 ∧
        RELOC_NAMES[((0, 0, 7) : Nat × Nat × Nat).2.1]? = some ("Branch")) :=
  claim_C10.2.2.2.2.1 exFuncSb 0 emptySink
    { offset := 4, words := [(0, 5373955)], relocs := [(0, 0, 7)] }
    (0, 0, 7) rfl (by decide)

end Riscv
